import Mathlib

/-!
Verification of the pathrouter library (router facade, parameter pool,
path cleaning) against its behavioural description.

The router facade (`router.go`) is embedded directly.  The radix tree
(`node.getValue`, `node.addRoute`, `node.findCaseInsensitivePath`) and the
path cleaner (`CleanPath`) are not among the sources of the repository;
they are modelled from the behavioural description, as marked on each such
definition.  Handlers, writers, contexts, error values and trapped values
are opaque to the router and are modelled by type parameters
`C` (context), `W` (writer), `E` (error), `V` (trapped value).
-/

set_option autoImplicit false

namespace PathRouter

variable {C W E V : Type}

/-- Param is a single URL parameter, a key and a value (`router.go`). -/
structure Param where
  key : String
  value : String
deriving DecidableEq, Repr

/-- Params is an ordered Param sequence, as returned by the router. -/
abbrev Params := List Param

/-- ByName returns the value of the first Param whose key matches the given
name, and the empty string when no Param matches (`router.go`). -/
def Params.byName (ps : Params) (name : String) : String :=
  match ps with
  | [] => ""
  | p :: rest => if p.key = name then p.value else Params.byName rest name

/-- Outcome of invoking a Go handler: a normal return of the pair
(found, error), or an abnormal termination carrying a trapped value. -/
inductive Outcome (E V : Type) where
  | ret (found : Bool) (err : Option E)
  | panic (val : V)
deriving DecidableEq, Repr

/-- Outcome of invoking the configured trap callback: a normal return, or
an abnormal termination of the trap itself. -/
inductive TrapOut (V : Type) where
  | ok
  | panic (val : V)
deriving DecidableEq, Repr

/-- Handle is the type of a registered request handler (`router.go`).  The
Go side effects on the writer are outside the model; the router only
forwards the writer value. -/
abbrev Handle (C W E V : Type) := C → String → Params → W → Outcome E V

/-- RouterConfig holds the optional configuration of the router
(`router.go`). -/
structure RouterConfig (C W E V : Type) where
  redirectTrailingSlash : Bool
  redirectFixedPath : Bool
  notFound : Option (Handle C W E V)
  panicHandler : Option (C → String → W → V → TrapOut V)

/-- Pool models the sync.Pool of parameter buffers.  `free` counts the
buffers currently sitting in the pool (a Get pops one, or allocates a new
buffer when the pool is empty; buffer contents are immaterial because a
borrowed buffer is reset and then overwritten by the lookup).  `borrowed`
and `gets` are ghost counters: the buffers currently out of the pool, and
the total number of Get calls so far. -/
structure Pool where
  free : Nat
  borrowed : Nat
  gets : Nat
deriving DecidableEq, Repr

/-- getParams borrows one buffer from the pool, resetting it
(`router.go`): the pool loses one free buffer (or allocates), and the
ghost counters record the borrow. -/
def getParams (p : Pool) : Pool :=
  ⟨p.free - 1, p.borrowed + 1, p.gets + 1⟩

/-- putParams returns a buffer to the pool when the pointer is present,
and does nothing on a nil pointer (`router.go`). -/
def putParams (ps : Option Params) (p : Pool) : Pool :=
  match ps with
  | none => p
  | some _ => ⟨p.free + 1, p.borrowed - 1, p.gets⟩

/-- Modelled from the spec: the result of one radix-tree lookup
(`node.getValue`, missing from the sources).  `handle` and `tsr` are the
first and third results; `usesBuffer` records whether the walk bound at
least one placeholder, in which case the lookup takes one buffer from the
pool, lazily and at most once, and fills it with `params`; a lookup that
binds no placeholder takes no buffer and returns a nil buffer pointer. -/
structure LookupResult (C W E V : Type) where
  handle : Option (Handle C W E V)
  usesBuffer : Bool
  params : Params
  tsr : Bool

/-- Modelled from the spec: a built radix tree (`node`, missing from the
sources), represented by its two observable lookup operations: `getValue`
(tree lookup) and `findCaseInsensitivePath` (case-insensitive repair,
returning the corrected path when found). -/
structure Tree (C W E V : Type) where
  getValue : String → LookupResult C W E V
  findCaseInsensitivePath : String → Bool → Option String

/-- Result of running `node.getValue` against the pool: handler, buffer
pointer (none models a nil pointer), TSR flag, and the pool afterwards. -/
structure GetValueOut (C W E V : Type) where
  handle : Option (Handle C W E V)
  ps : Option Params
  tsr : Bool
  pool : Pool

/-- Modelled from the spec: running a tree lookup with access to the pool.
The buffer is taken from the pool at most once, only when the walk binds a
placeholder. -/
def runGetValue (lk : LookupResult C W E V) (pool : Pool) : GetValueOut C W E V :=
  if lk.usesBuffer then ⟨lk.handle, some lk.params, lk.tsr, getParams pool⟩
  else ⟨lk.handle, none, lk.tsr, pool⟩

/-- Router holds the configuration, the lazily created tree, the maximum
placeholder count, and whether the pool allocation hook has been
installed (`router.go`).  The mutable pool itself is passed explicitly
through the operations. -/
structure Router (C W E V : Type) where
  conf : RouterConfig C W E V
  tree : Option (Tree C W E V)
  maxParams : Nat
  poolNewSet : Bool

/-- DefaultConfig enables both redirection options and no handlers
(`router.go`). -/
def DefaultConfig : RouterConfig C W E V :=
  ⟨true, true, none, none⟩

/-- NewWithConfig constructs a router with the given config and an empty
tree (`router.go`). -/
def NewWithConfig (conf : RouterConfig C W E V) : Router C W E V :=
  ⟨conf, none, 0, false⟩

/-- New constructs a router with the default configuration (`router.go`). -/
def New : Router C W E V :=
  NewWithConfig DefaultConfig

/-- splitSegsAux splits a character list at `/` separators, dropping empty
pieces; `cur` carries the characters of the segment being read, in
reverse. -/
def splitSegsAux : List Char → List Char → List (List Char)
  | cur, [] => if cur = [] then [] else [cur.reverse]
  | cur, c :: rest =>
      if c = '/' then
        if cur = [] then splitSegsAux [] rest
        else cur.reverse :: splitSegsAux [] rest
      else splitSegsAux (c :: cur) rest

/-- splitSegs lists the nonempty `/`-separated segments of a path. -/
def splitSegs (l : List Char) : List (List Char) :=
  splitSegsAux [] l

/-- Modelled from the spec: countParams (missing from the sources) counts
the placeholders of a pattern, one per segment beginning with a sigil. -/
def countParams (path : String) : Nat :=
  (splitSegs path.data).countP
    (fun seg => seg.head? == some ':' || seg.head? == some '*')

/-- Modelled from the spec: radix-tree insertion (`node.addRoute`, missing
from the sources), modelled observably for the registrations the claims
below exercise: after inserting a pattern, looking up exactly that pattern
yields the new handler (with no placeholder binding for a static pattern),
and every other lookup is unchanged.  Insertion-conflict failures are not
modelled. -/
def Tree.addRoute (t : Tree C W E V) (pattern : String) (h : Handle C W E V) :
    Tree C W E V :=
  ⟨fun path =>
      if path = pattern then ⟨some h, false, [], false⟩
      else t.getValue path,
    t.findCaseInsensitivePath⟩

/-- Modelled from the spec: a freshly allocated tree node carries no
routes; every lookup misses with no TSR and the case repair finds
nothing. -/
def emptyTree : Tree C W E V :=
  ⟨fun _ => ⟨none, false, [], false⟩, fun _ _ => none⟩

/-- normalizePattern is the path normalisation at the top of AddHandler
(`router.go`): an empty path becomes the root, and a missing leading
slash is prepended. -/
def normalizePattern (path : String) : String :=
  if path.data = [] then "/"
  else if path.data.head? = some '/' then path
  else "/" ++ path

/-- AddHandler registers a new request handle with the given path
(`router.go`): a nil handle returns immediately; otherwise the path is
normalised, the tree is created when absent, the route is inserted,
maxParams is raised to the placeholder count when larger, and the pool
allocation hook is installed once maxParams is positive. -/
def Router.addHandler (r : Router C W E V) (path : String)
    (handle : Option (Handle C W E V)) : Router C W E V :=
  match handle with
  | none => r
  | some h =>
      let path1 := normalizePattern path
      let root := r.tree.getD emptyTree
      let root1 := root.addRoute path1 h
      let maxParams1 := max r.maxParams (countParams path1)
      { r with
        tree := some root1
        maxParams := maxParams1
        poolNewSet := r.poolNewSet || decide (0 < maxParams1) }

/-- processSegs applies the dot rules of the path cleaner left to right:
a `.` segment is skipped, a `..` segment drops the previous segment of the
output (never above the root), any other segment is kept.  `acc` is the
output so far, reversed. -/
def processSegs : List (List Char) → List (List Char) → List (List Char)
  | acc, [] => acc.reverse
  | acc, seg :: rest =>
      if seg = ['.'] then processSegs acc rest
      else if seg = ['.', '.'] then processSegs acc.tail rest
      else processSegs (seg :: acc) rest

/-- joinSegs joins segments with single `/` separators. -/
def joinSegs : List (List Char) → List Char
  | [] => []
  | [seg] => seg
  | seg :: rest => seg ++ '/' :: joinSegs rest

/-- Modelled from the spec: the path cleaner (`CleanPath`, missing from
the sources), on character lists.  An empty path becomes the root; a
leading slash is guaranteed; runs of slashes collapse; `.` segments are
dropped; `..` segments drop the previous segment, never going above the
root; a trailing slash is preserved exactly when the input ended in a
slash and the result is not the root. -/
def cleanList (p : List Char) : List Char :=
  if p = [] then ['/']
  else if p.getLast? = some '/' ∧ processSegs [] (splitSegs p) ≠ [] then
    ('/' :: joinSegs (processSegs [] (splitSegs p))) ++ ['/']
  else '/' :: joinSegs (processSegs [] (splitSegs p))

/-- Modelled from the spec: the path cleaner on strings. -/
def CleanPath (p : String) : String :=
  String.mk (cleanList p.data)

/-- toggleTrailingSlash is the path adjustment of the TSR branch of Serve
(`router.go`): remove the trailing slash when the path is longer than one
byte and ends in a slash, append one otherwise. -/
def toggleTrailingSlash (reqPath : String) : String :=
  if reqPath.utf8ByteSize > 1 ∧ reqPath.data.getLast? = some '/' then
    String.mk reqPath.data.dropLast
  else reqPath ++ "/"

/-- Event records the externally observable calls a Serve invocation
performs, in order. -/
inductive Event (C W V : Type) where
  | handlerCall (ctx : C) (path : String) (ps : Params) (w : W)
  | notFoundCall (ctx : C) (path : String) (ps : Params) (w : W)
  | tsrRedirect (oldPath newPath : String)
  | fixedRedirect (oldPath newPath : String)
  | trapCall (ctx : C) (path : String) (w : W) (val : V)
deriving DecidableEq, Repr

/-- ServeOut is the result of a Serve invocation: the outcome (none only
when the recursion fuel ran out), the pool afterwards, and the events in
order. -/
structure ServeOut (C W E V : Type) where
  result : Option (Outcome E V)
  pool : Pool
  events : List (Event C W V)

/-- notFoundStep is the final not-found section of Serve (`router.go`):
without a configured not-found handler return (false, nil); otherwise
invoke it with nil params and propagate its outcome. -/
def notFoundStep (r : Router C W E V) (ctx : C) (reqPath : String) (w : W)
    (pool : Pool) (evs : List (Event C W V)) : ServeOut C W E V :=
  match r.conf.notFound with
  | none => ⟨some (Outcome.ret false none), pool, evs⟩
  | some nf =>
      ⟨some (nf ctx reqPath [] w), pool,
        evs ++ [Event.notFoundCall ctx reqPath [] w]⟩

/-- recoverPanic is the deferred trap of Serve (`router.go`): when the
body terminated abnormally and a trap is configured, the trap is invoked
with the context, the request path as given to Serve, the writer and the
trapped value; an abnormal termination of the trap itself is swallowed,
and Serve then returns the zero values (false, nil).  Without a configured
trap the abnormal termination passes through. -/
def Router.recoverPanic (r : Router C W E V) (ctx : C) (reqPath : String)
    (w : W) (core : ServeOut C W E V) : ServeOut C W E V :=
  match core.result with
  | some (Outcome.panic v) =>
      match r.conf.panicHandler with
      | some ph =>
          match ph ctx reqPath w v with
          | TrapOut.ok =>
              ⟨some (Outcome.ret false none), core.pool,
                core.events ++ [Event.trapCall ctx reqPath w v]⟩
          | TrapOut.panic _ =>
              ⟨some (Outcome.ret false none), core.pool,
                core.events ++ [Event.trapCall ctx reqPath w v]⟩
      | none => core
  | _ => core

/-- LookupPath looks up a handler manually (`router.go`): on a miss the
buffer is returned to the pool and (nil, nil, tsr) comes back; on a hit
with a nil buffer the params are nil; on a hit with a buffer the buffer
contents are handed to the caller, and the buffer is not returned to the
pool. -/
def Router.lookupPath (r : Router C W E V) (path : String) (pool : Pool) :
    Option (Handle C W E V) × Params × Bool × Pool :=
  match r.tree with
  | some root =>
      let gv := runGetValue (root.getValue path) pool
      match gv.handle with
      | none => (none, [], gv.tsr, putParams gv.ps gv.pool)
      | some h =>
          match gv.ps with
          | none => (some h, [], gv.tsr, gv.pool)
          | some v => (some h, v, gv.tsr, gv.pool)
  | none => (none, [], false, pool)

/-- serve embeds Serve (`router.go`), with explicit recursion fuel for the
internal reentries (a result of none means the fuel ran out).  An empty
request path becomes the root; when the tree exists the path is looked up;
a found handler is invoked with the bound params, its buffer is returned
to the pool on exit, and a (true, _) or (_, error) outcome propagates
while (false, nil) falls to the not-found section; a miss on a non-root
path reenters with the trailing slash toggled when TSR is signalled and
the option is set, or with the case-repaired cleaned path when that option
is set and repair succeeds; the deferred trap wraps every outcome. -/
def Router.serve : Router C W E V → Nat → C → String → W → Pool →
    ServeOut C W E V
  | _, 0, _, _, _, pool => ⟨none, pool, []⟩
  | r, fuel + 1, ctx, reqPath0, w, pool =>
      let reqPath := if reqPath0 = "" then "/" else reqPath0
      let core : ServeOut C W E V :=
        match r.tree with
        | none => notFoundStep r ctx reqPath w pool []
        | some root =>
            let gv := runGetValue (root.getValue reqPath) pool
            match gv.handle with
            | some handle =>
                let params : Params := gv.ps.getD []
                let ev : Event C W V := Event.handlerCall ctx reqPath params w
                let pool2 := putParams gv.ps gv.pool
                match handle ctx reqPath params w with
                | Outcome.panic v => ⟨some (Outcome.panic v), pool2, [ev]⟩
                | Outcome.ret found err =>
                    if found || err.isSome then
                      ⟨some (Outcome.ret found err), pool2, [ev]⟩
                    else notFoundStep r ctx reqPath w pool2 [ev]
            | none =>
                if reqPath ≠ "/" ∧ reqPath ≠ "" then
                  if gv.tsr ∧ r.conf.redirectTrailingSlash then
                    let newPath := toggleTrailingSlash reqPath
                    let sub := Router.serve r fuel ctx newPath w gv.pool
                    ⟨sub.result, sub.pool,
                      Event.tsrRedirect reqPath newPath :: sub.events⟩
                  else if r.conf.redirectFixedPath then
                    match root.findCaseInsensitivePath (CleanPath reqPath)
                        r.conf.redirectTrailingSlash with
                    | some fixedPath =>
                        let sub := Router.serve r fuel ctx fixedPath w gv.pool
                        ⟨sub.result, sub.pool,
                          Event.fixedRedirect reqPath fixedPath :: sub.events⟩
                    | none => notFoundStep r ctx reqPath w gv.pool []
                  else notFoundStep r ctx reqPath w gv.pool []
                else notFoundStep r ctx reqPath w gv.pool []
      r.recoverPanic ctx reqPath0 w core

/-- countTrapCalls counts the trap invocations among the events. -/
def countTrapCalls (evs : List (Event C W V)) : Nat :=
  evs.countP (fun e =>
    match e with
    | Event.trapCall _ _ _ _ => true
    | _ => false)

/-- countRedirects counts the internal reentries (trailing-slash and
fixed-path redirects) among the events; each reentry performs exactly one
further tree lookup. -/
def countRedirects (evs : List (Event C W V)) : Nat :=
  evs.countP (fun e =>
    match e with
    | Event.tsrRedirect _ _ => true
    | Event.fixedRedirect _ _ => true
    | _ => false)

/-- trapOk is the trap-count invariant of a Serve result: at most one
trap invocation is recorded, and none when the result is an escaping
abnormal termination. -/
def trapOk (out : ServeOut C W E V) : Prop :=
  countTrapCalls out.events ≤ 1 ∧
    ∀ v, out.result = some (Outcome.panic v) → countTrapCalls out.events = 0

/-- A handler that reports found with a parameter binding; used to
exercise the pool accounting of LookupPath and Serve. -/
def hdlParams : Handle Unit Unit Unit Unit :=
  fun _ _ _ _ => Outcome.ret true none

/-- A tree whose every lookup finds `hdlParams` with one bound
placeholder, as a tree built from the pattern `/:a` behaves on
single-segment paths. -/
def treeParams : Tree Unit Unit Unit Unit :=
  ⟨fun _ => ⟨some hdlParams, true, [⟨"a", "b"⟩], false⟩, fun _ _ => none⟩

/-- A router over `treeParams`. -/
def rtrParams : Router Unit Unit Unit Unit :=
  ⟨⟨true, true, none, none⟩, some treeParams, 1, true⟩

/-- A tree whose every lookup binds a placeholder and then misses, as a
tree built from the pattern `/a/:b/c` behaves on paths such as `/a/x/z`:
the walk binds b before failing deeper, so the buffer is taken and no
handler is found. -/
def treeDrop : Tree Unit Unit Unit Unit :=
  ⟨fun _ => ⟨none, true, [⟨"b", "x"⟩], false⟩, fun _ _ => none⟩

/-- A router over `treeDrop` with both redirection options off. -/
def rtrDrop : Router Unit Unit Unit Unit :=
  ⟨⟨false, false, none, none⟩, some treeDrop, 1, true⟩

/-- A handler that returns a non-nil error with found = false. -/
def hdlErr : Handle Unit Unit Unit Unit :=
  fun _ _ _ _ => Outcome.ret false (some ())

/-- A tree whose every lookup finds `hdlErr` with no placeholder. -/
def treeErr : Tree Unit Unit Unit Unit :=
  ⟨fun _ => ⟨some hdlErr, false, [], false⟩, fun _ _ => none⟩

/-- A router over `treeErr`. -/
def rtrErr : Router Unit Unit Unit Unit :=
  ⟨⟨true, true, none, none⟩, some treeErr, 0, false⟩

/-- A handler that reports not found with a nil error. -/
def hdlMiss : Handle Unit Unit Unit Unit :=
  fun _ _ _ _ => Outcome.ret false none

/-- A not-found handler that reports found. -/
def nfOk : Handle Unit Unit Unit Unit :=
  fun _ _ _ _ => Outcome.ret true none

/-- A tree whose every lookup finds `hdlMiss`. -/
def treeMiss : Tree Unit Unit Unit Unit :=
  ⟨fun _ => ⟨some hdlMiss, false, [], false⟩, fun _ _ => none⟩

/-- A router over `treeMiss` with `nfOk` configured as not-found. -/
def rtrMiss : Router Unit Unit Unit Unit :=
  ⟨⟨true, true, some nfOk, none⟩, some treeMiss, 0, false⟩

/-- A tree registering only the path `/x`: looking it up succeeds, and a
lookup of `/x/` misses with a TSR recommendation. -/
def treeTsr : Tree Unit Unit Unit Unit :=
  ⟨fun path =>
      if path = "/x" then ⟨some nfOk, false, [], false⟩
      else ⟨none, false, [], path = "/x/"⟩,
    fun _ _ => none⟩

/-- A router over `treeTsr` with trailing-slash redirection enabled. -/
def rtrTsr : Router Unit Unit Unit Unit :=
  ⟨⟨true, true, none, none⟩, some treeTsr, 0, false⟩

/-- A handler that terminates abnormally. -/
def hdlPanics : Handle Unit Unit Unit Unit :=
  fun _ _ _ _ => Outcome.panic ()

/-- A trap callback that itself terminates abnormally. -/
def trapTrap : Unit → String → Unit → Unit → TrapOut Unit :=
  fun _ _ _ _ => TrapOut.panic ()

/-- A tree whose every lookup finds `hdlPanics`. -/
def treePanic : Tree Unit Unit Unit Unit :=
  ⟨fun _ => ⟨some hdlPanics, false, [], false⟩, fun _ _ => none⟩

/-- A router over `treePanic` with `trapTrap` configured as the trap. -/
def rtrPanic : Router Unit Unit Unit Unit :=
  ⟨⟨true, true, none, some trapTrap⟩, some treePanic, 0, false⟩

/-- A router over `treePanic` with no trap configured. -/
def rtrNoTrapA : Router Unit Unit Unit Unit :=
  ⟨⟨true, true, none, none⟩, some treePanic, 0, false⟩

/-- A router with no tree, no trap, and an abnormally terminating
not-found handler. -/
def rtrNoTrapB : Router Unit Unit Unit Unit :=
  ⟨⟨true, true, some hdlPanics, none⟩, none, 0, false⟩

theorem mem_of_getLast?_eq {l : List Char} {a : Char}
    (h : l.getLast? = some a) : a ∈ l := by
  rcases List.mem_getLast?_eq_getLast (Option.mem_def.mpr h) with ⟨hne, heq⟩
  exact heq ▸ List.getLast_mem hne

theorem splitSegsAux_append_no_slash (seg : List Char) (hseg : '/' ∉ seg) :
    ∀ (cur t : List Char),
      splitSegsAux cur (seg ++ t) = splitSegsAux (seg.reverse ++ cur) t := by
  induction seg with
  | nil => intro cur t; simp
  | cons c seg ih =>
      intro cur t
      have hc : ¬ (c = '/') := fun he => hseg (he ▸ List.mem_cons_self _ _)
      have hrest : '/' ∉ seg := fun hm => hseg (List.mem_cons_of_mem _ hm)
      simp only [List.cons_append, splitSegsAux, if_neg hc]
      show splitSegsAux (c :: cur) (seg ++ t) = _
      rw [ih hrest (c :: cur) t]
      simp

theorem splitSegsAux_good (l : List Char) :
    ∀ (cur : List Char), '/' ∉ cur →
      ∀ s ∈ splitSegsAux cur l, s ≠ [] ∧ '/' ∉ s := by
  induction l with
  | nil =>
      intro cur hcur s hs
      simp only [splitSegsAux] at hs
      by_cases h : cur = []
      · rw [if_pos h] at hs; simp at hs
      · rw [if_neg h] at hs
        simp only [List.mem_singleton] at hs
        subst hs
        exact ⟨by simpa [List.reverse_eq_nil_iff] using h,
          by simpa [List.mem_reverse] using hcur⟩
  | cons c rest ih =>
      intro cur hcur s hs
      simp only [splitSegsAux] at hs
      by_cases hc : c = '/'
      · rw [if_pos hc] at hs
        by_cases h : cur = []
        · rw [if_pos h] at hs
          exact ih [] (by simp) s hs
        · rw [if_neg h] at hs
          rcases List.mem_cons.mp hs with rfl | hs2
          · exact ⟨by simpa [List.reverse_eq_nil_iff] using h,
              by simpa [List.mem_reverse] using hcur⟩
          · exact ih [] (by simp) s hs2
      · rw [if_neg hc] at hs
        refine ih (c :: cur) ?_ s hs
        intro hm
        rcases List.mem_cons.mp hm with h | h
        · exact hc h.symm
        · exact hcur h

theorem processSegs_mem (segs : List (List Char)) :
    ∀ (acc : List (List Char)) (s : List Char), s ∈ processSegs acc segs →
      s ∈ acc ∨ (s ∈ segs ∧ s ≠ ['.'] ∧ s ≠ ['.', '.']) := by
  induction segs with
  | nil =>
      intro acc s hs
      simp only [processSegs, List.mem_reverse] at hs
      exact Or.inl hs
  | cons seg rest ih =>
      intro acc s hs
      simp only [processSegs] at hs
      by_cases h1 : seg = ['.']
      · rw [if_pos h1] at hs
        rcases ih acc s hs with h | ⟨h2, h3⟩
        · exact Or.inl h
        · exact Or.inr ⟨List.mem_cons_of_mem _ h2, h3⟩
      · rw [if_neg h1] at hs
        by_cases h2 : seg = ['.', '.']
        · rw [if_pos h2] at hs
          rcases ih acc.tail s hs with h | ⟨h3, h4⟩
          · exact Or.inl (List.tail_subset _ h)
          · exact Or.inr ⟨List.mem_cons_of_mem _ h3, h4⟩
        · rw [if_neg h2] at hs
          rcases ih (seg :: acc) s hs with h | ⟨h3, h4⟩
          · rcases List.mem_cons.mp h with rfl | h5
            · exact Or.inr ⟨List.mem_cons_self _ _, h1, h2⟩
            · exact Or.inl h5
          · exact Or.inr ⟨List.mem_cons_of_mem _ h3, h4⟩

theorem processSegs_no_dots (segs : List (List Char))
    (h : ∀ s ∈ segs, s ≠ ['.'] ∧ s ≠ ['.', '.']) :
    ∀ acc, processSegs acc segs = acc.reverse ++ segs := by
  induction segs with
  | nil => intro acc; simp [processSegs]
  | cons seg rest ih =>
      intro acc
      obtain ⟨h1, h2⟩ := h seg (List.mem_cons_self _ _)
      have hrest : ∀ s ∈ rest, s ≠ ['.'] ∧ s ≠ ['.', '.'] :=
        fun s hs => h s (List.mem_cons_of_mem _ hs)
      simp only [processSegs, if_neg h1, if_neg h2]
      rw [ih hrest]
      simp

theorem splitSegsAux_joinSegs (segs : List (List Char))
    (hgood : ∀ s ∈ segs, s ≠ [] ∧ '/' ∉ s) :
    splitSegsAux [] (joinSegs segs) = segs ∧
      splitSegsAux [] (joinSegs segs ++ ['/']) = segs := by
  induction segs with
  | nil => exact ⟨rfl, rfl⟩
  | cons s rest ih =>
      obtain ⟨hs_ne, hs_slash⟩ := hgood s (List.mem_cons_self _ _)
      cases rest with
      | nil =>
          constructor
          · have h0 := splitSegsAux_append_no_slash s hs_slash [] []
            rw [List.append_nil, List.append_nil] at h0
            rw [show joinSegs [s] = s from rfl, h0]
            simp [splitSegsAux, List.reverse_eq_nil_iff, hs_ne]
          · have h0 := splitSegsAux_append_no_slash s hs_slash [] ['/']
            rw [List.append_nil] at h0
            rw [show joinSegs [s] = s from rfl, h0]
            simp [splitSegsAux, List.reverse_eq_nil_iff, hs_ne]
      | cons s2 rest2 =>
          have hrest : ∀ x ∈ s2 :: rest2, x ≠ [] ∧ '/' ∉ x :=
            fun x hx => hgood x (List.mem_cons_of_mem _ hx)
          obtain ⟨ih1, ih2⟩ := ih hrest
          have hrev : ¬ (s.reverse ++ ([] : List Char) = []) := by
            simpa [List.reverse_eq_nil_iff] using hs_ne
          constructor
          · rw [show joinSegs (s :: s2 :: rest2) =
                s ++ '/' :: joinSegs (s2 :: rest2) from rfl,
              splitSegsAux_append_no_slash s hs_slash [] _]
            simp only [splitSegsAux, if_pos rfl, if_neg hrev]
            rw [ih1]
            simp [hs_ne]
          · rw [show joinSegs (s :: s2 :: rest2) ++ ['/'] =
                s ++ '/' :: (joinSegs (s2 :: rest2) ++ ['/']) from by
                  simp [joinSegs],
              splitSegsAux_append_no_slash s hs_slash [] _]
            simp only [splitSegsAux, if_pos rfl, if_neg hrev]
            rw [ih2]
            simp [hs_ne]

theorem joinSegs_ne_nil (segs : List (List Char)) (h0 : segs ≠ [])
    (hgood : ∀ s ∈ segs, s ≠ [] ∧ '/' ∉ s) : joinSegs segs ≠ [] := by
  cases segs with
  | nil => exact absurd rfl h0
  | cons s rest =>
      cases rest with
      | nil => exact (hgood s (List.mem_cons_self _ _)).1
      | cons s2 r2 =>
          rw [show joinSegs (s :: s2 :: r2) =
            s ++ '/' :: joinSegs (s2 :: r2) from rfl]
          exact List.append_ne_nil_of_right_ne_nil s (by simp)

theorem joinSegs_getLast_ne_slash (segs : List (List Char))
    (hgood : ∀ s ∈ segs, s ≠ [] ∧ '/' ∉ s) (h0 : segs ≠ []) :
    (joinSegs segs).getLast? ≠ some '/' := by
  induction segs with
  | nil => exact absurd rfl h0
  | cons s rest ih =>
      obtain ⟨hs_ne, hs_slash⟩ := hgood s (List.mem_cons_self _ _)
      cases rest with
      | nil =>
          intro hlast
          exact hs_slash (mem_of_getLast?_eq hlast)
      | cons s2 r2 =>
          have hrest : ∀ x ∈ s2 :: r2, x ≠ [] ∧ '/' ∉ x :=
            fun x hx => hgood x (List.mem_cons_of_mem _ hx)
          have hne := joinSegs_ne_nil (s2 :: r2) (by simp) hrest
          rw [show joinSegs (s :: s2 :: r2) =
              s ++ '/' :: joinSegs (s2 :: r2) from rfl,
            List.getLast?_append_of_ne_nil s (by simp),
            show ('/' :: joinSegs (s2 :: r2)) = ['/'] ++ joinSegs (s2 :: r2)
              from rfl,
            List.getLast?_append_of_ne_nil ['/'] hne]
          exact ih hrest (by simp)

theorem cleanSegs_good (p : List Char) :
    ∀ s ∈ processSegs [] (splitSegs p),
      (s ≠ [] ∧ '/' ∉ s) ∧ (s ≠ ['.'] ∧ s ≠ ['.', '.']) := by
  intro s hs
  rcases processSegs_mem (splitSegs p) [] s hs with h | ⟨h1, h2⟩
  · simp at h
  · exact ⟨splitSegsAux_good p [] (by simp) s h1, h2⟩

theorem splitSegs_cons_slash (l : List Char) :
    splitSegs ('/' :: l) = splitSegsAux [] l := by
  simp [splitSegs, splitSegsAux]

theorem cleanList_idem (p : List Char) : cleanList (cleanList p) = cleanList p := by
  by_cases hp : p = []
  · subst hp; decide
  · have hgood : ∀ s ∈ processSegs [] (splitSegs p), s ≠ [] ∧ '/' ∉ s :=
      fun s hs => (cleanSegs_good p s hs).1
    have hnodots : ∀ s ∈ processSegs [] (splitSegs p),
        s ≠ ['.'] ∧ s ≠ ['.', '.'] := fun s hs => (cleanSegs_good p s hs).2
    by_cases hs0 : processSegs [] (splitSegs p) = []
    · have h1 : cleanList p = ['/'] := by
        rw [cleanList, if_neg hp, if_neg (by simp [hs0]), hs0]
        rfl
      rw [h1]
      decide
    · by_cases htr : p.getLast? = some '/'
      · have h1 : cleanList p =
            '/' :: (joinSegs (processSegs [] (splitSegs p)) ++ ['/']) := by
          rw [cleanList, if_neg hp, if_pos ⟨htr, hs0⟩]
          simp
        rw [h1, cleanList, if_neg (by simp), splitSegs_cons_slash,
          (splitSegsAux_joinSegs _ hgood).2, processSegs_no_dots _ hnodots]
        have hlast : ('/' :: (joinSegs (processSegs [] (splitSegs p)) ++ ['/'])
            ).getLast? = some '/' := by
          rw [show ('/' :: (joinSegs (processSegs [] (splitSegs p)) ++ ['/']))
              = ('/' :: joinSegs (processSegs [] (splitSegs p))) ++ ['/'] from
                by simp,
            List.getLast?_append_of_ne_nil _ (by simp)]
          rfl
        rw [if_pos ⟨hlast, by simpa using hs0⟩]
        simp
      · have h1 : cleanList p = '/' :: joinSegs (processSegs [] (splitSegs p)) := by
          rw [cleanList, if_neg hp, if_neg (by simp [htr])]
        rw [h1, cleanList, if_neg (by simp), splitSegs_cons_slash,
          (splitSegsAux_joinSegs _ hgood).1, processSegs_no_dots _ hnodots]
        have hlast : ('/' :: joinSegs (processSegs [] (splitSegs p))).getLast?
            ≠ some '/' := by
          rw [show ('/' :: joinSegs (processSegs [] (splitSegs p)))
              = ['/'] ++ joinSegs (processSegs [] (splitSegs p)) from rfl,
            List.getLast?_append_of_ne_nil ['/']
              (joinSegs_ne_nil _ hs0 hgood)]
          exact joinSegs_getLast_ne_slash _ hgood hs0
        rw [if_neg (by simp [hlast])]
        simp

/-- C9: the path cleaner is idempotent: cleaning an already cleaned path
changes nothing. -/
theorem cleanPath_idempotent (x : String) :
    CleanPath (CleanPath x) = CleanPath x := by
  show String.mk (cleanList (String.mk (cleanList x.data)).data)
      = String.mk (cleanList x.data)
  rw [show (String.mk (cleanList x.data)).data = cleanList x.data from rfl,
    cleanList_idem]

/-- C6: ByName returns the value of the first Param whose key equals the
given name, and the empty string when no Param matches. -/
theorem byName_first_match (ps : Params) (name : String) :
    Params.byName ps name =
      ((ps.find? fun p => p.key == name).map Param.value).getD "" := by
  induction ps with
  | nil => rfl
  | cons p rest ih =>
      by_cases h : p.key = name
      · simp [Params.byName, List.find?_cons, h]
      · simp [Params.byName, List.find?_cons, h, ih]

/-- C7: AddHandler with a nil handler is a silent no-op: the router state
is unchanged, and every later lookup and serve behaves as if the call
never happened. -/
theorem addHandler_nil_noop (r : Router C W E V) (path : String) :
    r.addHandler path none = r ∧
      (∀ p pool, (r.addHandler path none).lookupPath p pool
        = r.lookupPath p pool) ∧
      (∀ fuel ctx p w pool, (r.addHandler path none).serve fuel ctx p w pool
        = r.serve fuel ctx p w pool) :=
  ⟨rfl, fun _ _ => rfl, fun _ _ _ _ _ => rfl⟩

/-- C8 counterexample: AddHandler on an empty path with a non-nil handler
is not a no-op: on a fresh router it allocates the tree (the state
changes) and registers the handler, which a lookup of the root then
finds. -/
theorem addHandler_empty_path_not_noop :
    ¬ ((New : Router Unit Unit Unit Unit).addHandler ""
        (some fun _ _ _ _ => Outcome.ret true none) = New) ∧
      (((New : Router Unit Unit Unit Unit).addHandler ""
        (some fun _ _ _ _ => Outcome.ret true none)).lookupPath "/"
          ⟨0, 0, 0⟩).1.isSome = true := by
  constructor
  · intro h
    have h2 := congrArg (fun r : Router Unit Unit Unit Unit => r.tree.isSome) h
    exact Bool.noConfusion h2
  · rfl

/-- C8 amended: AddHandler with an empty path and a non-nil handler
normalises the path to the root pattern: the call equals registering the
same handler at the root path, and is not a no-op. -/
theorem addHandler_empty_eq_root (r : Router C W E V) (h : Handle C W E V) :
    r.addHandler "" (some h) = r.addHandler "/" (some h) := by
  have e1 : normalizePattern "" = "/" := by decide
  have e2 : normalizePattern "/" = "/" := by decide
  simp only [Router.addHandler, e1, e2]

theorem recoverPanic_ret (r : Router C W E V) (ctx : C) (p : String) (w : W)
    (core : ServeOut C W E V) (f : Bool) (e : Option E)
    (h : core.result = some (Outcome.ret f e)) :
    r.recoverPanic ctx p w core = core := by
  simp only [Router.recoverPanic, h]

theorem recoverPanic_none (r : Router C W E V) (ctx : C) (p : String) (w : W)
    (core : ServeOut C W E V) (h : core.result = none) :
    r.recoverPanic ctx p w core = core := by
  simp only [Router.recoverPanic, h]

theorem recoverPanic_result_ne_panic (r : Router C W E V) (ctx : C)
    (p : String) (w : W) (core : ServeOut C W E V)
    (ph : C → String → W → V → TrapOut V)
    (hph : r.conf.panicHandler = some ph) (v : V) :
    (r.recoverPanic ctx p w core).result ≠ some (Outcome.panic v) := by
  rcases hres : core.result with _ | out
  · rw [recoverPanic_none _ _ _ _ _ hres, hres]; simp
  · rcases out with ⟨f, e⟩ | pv
    · rw [recoverPanic_ret _ _ _ _ _ _ _ hres, hres]; simp
    · simp only [Router.recoverPanic, hres, hph]
      rcases h2 : ph ctx p w pv with _ | pv2 <;> simp [h2]

theorem serve_result_ne_panic (r : Router C W E V) (fuel : Nat) (ctx : C)
    (p : String) (w : W) (pool : Pool)
    (ph : C → String → W → V → TrapOut V)
    (hph : r.conf.panicHandler = some ph) (v : V) :
    (r.serve fuel ctx p w pool).result ≠ some (Outcome.panic v) := by
  cases fuel with
  | zero => simp [Router.serve]
  | succ n =>
      simp only [Router.serve]
      exact recoverPanic_result_ne_panic _ _ _ _ _ ph hph v

/-- C2: when the matched handler returns a non-nil error, Serve returns
exactly that pair (handled, error), the only call performed being the
handler call: no not-found handler and no redirection. -/
theorem serve_propagates_handler_error (fuel : Nat) (r : Router C W E V)
    (ctx : C) (reqPath : String) (w : W) (pool : Pool) (root : Tree C W E V)
    (h : Handle C W E V) (found : Bool) (e : E)
    (hroot : r.tree = some root)
    (hpath : reqPath ≠ "")
    (hh : (root.getValue reqPath).handle = some h)
    (hcall : h ctx reqPath
        (if (root.getValue reqPath).usesBuffer
          then (root.getValue reqPath).params else []) w
        = Outcome.ret found (some e)) :
    (r.serve (fuel + 1) ctx reqPath w pool).result
        = some (Outcome.ret found (some e)) ∧
      (r.serve (fuel + 1) ctx reqPath w pool).events
        = [Event.handlerCall ctx reqPath
            (if (root.getValue reqPath).usesBuffer
              then (root.getValue reqPath).params else []) w] := by
  cases hub : (root.getValue reqPath).usesBuffer <;>
    rw [hub] at hcall <;>
    simp only [if_true, if_false, Bool.false_eq_true, ite_false, ite_true] at hcall <;>
    simp [Router.serve, hroot, hpath, runGetValue, hub, hh, hcall,
      Router.recoverPanic]

theorem recoverPanic_no_handler (r : Router C W E V) (ctx : C) (p : String)
    (w : W) (core : ServeOut C W E V)
    (hph : r.conf.panicHandler = none) :
    r.recoverPanic ctx p w core = core := by
  rcases hres : core.result with _ | out
  · exact recoverPanic_none _ _ _ _ _ hres
  · rcases out with ⟨f, e⟩ | pv
    · exact recoverPanic_ret _ _ _ _ _ _ _ hres
    · simp only [Router.recoverPanic, hres, hph]

theorem recoverPanic_of_result_ne (r : Router C W E V) (ctx : C) (p : String)
    (w : W) (core : ServeOut C W E V)
    (h : ∀ v, core.result ≠ some (Outcome.panic v)) :
    r.recoverPanic ctx p w core = core := by
  rcases hres : core.result with _ | out
  · exact recoverPanic_none _ _ _ _ _ hres
  · rcases out with ⟨f, e⟩ | pv
    · exact recoverPanic_ret _ _ _ _ _ _ _ hres
    · exact absurd hres (h pv)

theorem recoverPanic_mk_of_ne (r : Router C W E V) (ctx : C) (p : String)
    (w : W) (res : Option (Outcome E V)) (pl : Pool)
    (evs : List (Event C W V)) (h : ∀ v, res ≠ some (Outcome.panic v)) :
    r.recoverPanic ctx p w ⟨res, pl, evs⟩ = ⟨res, pl, evs⟩ :=
  recoverPanic_of_result_ne _ _ _ _ _ h

theorem recoverPanic_pool (r : Router C W E V) (ctx : C) (p : String) (w : W)
    (core : ServeOut C W E V) :
    (r.recoverPanic ctx p w core).pool = core.pool := by
  rcases hres : core.result with _ | out
  · rw [recoverPanic_none _ _ _ _ _ hres]
  · rcases out with ⟨f, e⟩ | pv
    · rw [recoverPanic_ret _ _ _ _ _ _ _ hres]
    · rcases hph : r.conf.panicHandler with _ | ph
      · rw [recoverPanic_no_handler _ _ _ _ _ hph]
      · simp only [Router.recoverPanic, hres, hph]
        rcases h3 : ph ctx p w pv with _ | pv2 <;> simp [h3]

/-- C3: when the matched handler returns (false, nil), Serve performs no
redirection and falls directly to the not-found section: without a
configured not-found handler it returns (false, nil), otherwise it invokes
the not-found handler with empty params and returns its result. -/
theorem serve_handler_not_found_fallback (fuel : Nat) (r : Router C W E V)
    (ctx : C) (reqPath : String) (w : W) (pool : Pool) (root : Tree C W E V)
    (h : Handle C W E V)
    (hroot : r.tree = some root) (hpath : reqPath ≠ "")
    (hh : (root.getValue reqPath).handle = some h)
    (hcall : h ctx reqPath
        (if (root.getValue reqPath).usesBuffer
          then (root.getValue reqPath).params else []) w
        = Outcome.ret false none) :
    (r.conf.notFound = none →
      (r.serve (fuel + 1) ctx reqPath w pool).result
          = some (Outcome.ret false none) ∧
        (r.serve (fuel + 1) ctx reqPath w pool).events
          = [Event.handlerCall ctx reqPath
              (if (root.getValue reqPath).usesBuffer
                then (root.getValue reqPath).params else []) w]) ∧
    (∀ (nf : Handle C W E V) (nfFound : Bool) (nfErr : Option E),
      r.conf.notFound = some nf →
      nf ctx reqPath [] w = Outcome.ret nfFound nfErr →
      (r.serve (fuel + 1) ctx reqPath w pool).result
          = some (Outcome.ret nfFound nfErr) ∧
        (r.serve (fuel + 1) ctx reqPath w pool).events
          = [Event.handlerCall ctx reqPath
              (if (root.getValue reqPath).usesBuffer
                then (root.getValue reqPath).params else []) w,
             Event.notFoundCall ctx reqPath [] w]) := by
  constructor
  · intro hnf
    cases hub : (root.getValue reqPath).usesBuffer <;>
      rw [hub] at hcall <;>
      simp only [Bool.false_eq_true, ite_false, ite_true] at hcall <;>
      simp [Router.serve, hroot, hpath, runGetValue, hub, hh, hcall,
        notFoundStep, hnf, Router.recoverPanic]
  · intro nf nfFound nfErr hnf hnfcall
    cases hub : (root.getValue reqPath).usesBuffer <;>
      rw [hub] at hcall <;>
      simp only [Bool.false_eq_true, ite_false, ite_true] at hcall <;>
      simp [Router.serve, hroot, hpath, runGetValue, hub, hh, hcall,
        notFoundStep, hnf, hnfcall, Router.recoverPanic]

/-- C4: on a lookup miss with a TSR recommendation, with the
redirect-trailing-slash option set and a non-root nonempty path, Serve
returns the result of reentering itself with the trailing slash toggled:
removed when the path is longer than one byte and ends in a slash,
appended otherwise. -/
theorem serve_tsr_reentry (fuel : Nat) (r : Router C W E V) (ctx : C)
    (reqPath : String) (w : W) (pool : Pool) (root : Tree C W E V)
    (hroot : r.tree = some root)
    (hrts : r.conf.redirectTrailingSlash = true)
    (hp1 : reqPath ≠ "/") (hp2 : reqPath ≠ "")
    (hh : (root.getValue reqPath).handle = none)
    (htsr : (root.getValue reqPath).tsr = true) :
    ((r.serve (fuel + 1) ctx reqPath w pool).result
        = (r.serve fuel ctx (toggleTrailingSlash reqPath) w
            (if (root.getValue reqPath).usesBuffer
              then getParams pool else pool)).result) ∧
      ((r.serve (fuel + 1) ctx reqPath w pool).events
        = Event.tsrRedirect reqPath (toggleTrailingSlash reqPath)
            :: (r.serve fuel ctx (toggleTrailingSlash reqPath) w
                (if (root.getValue reqPath).usesBuffer
                  then getParams pool else pool)).events) ∧
      toggleTrailingSlash reqPath
        = (if reqPath.utf8ByteSize > 1 ∧ reqPath.data.getLast? = some '/'
            then String.mk reqPath.data.dropLast else reqPath ++ "/") := by
  have hstep : r.serve (fuel + 1) ctx reqPath w pool
      = r.recoverPanic ctx reqPath w
          ⟨(r.serve fuel ctx (toggleTrailingSlash reqPath) w
              (if (root.getValue reqPath).usesBuffer
                then getParams pool else pool)).result,
            (r.serve fuel ctx (toggleTrailingSlash reqPath) w
              (if (root.getValue reqPath).usesBuffer
                then getParams pool else pool)).pool,
            Event.tsrRedirect reqPath (toggleTrailingSlash reqPath)
              :: (r.serve fuel ctx (toggleTrailingSlash reqPath) w
                  (if (root.getValue reqPath).usesBuffer
                    then getParams pool else pool)).events⟩ := by
    cases hub : (root.getValue reqPath).usesBuffer <;>
      simp [Router.serve, hroot, hp1, hp2, runGetValue, hub, hh, htsr, hrts]
  rcases hph : r.conf.panicHandler with _ | ph
  · rw [hstep, recoverPanic_no_handler _ _ _ _ _ hph]
    exact ⟨rfl, rfl, rfl⟩
  · rw [hstep, recoverPanic_mk_of_ne _ _ _ _ _ _ _
      (fun v => serve_result_ne_panic r fuel ctx _ w _ ph hph v)]
    exact ⟨rfl, rfl, rfl⟩

/-- C10: with no trap configured, an abnormal termination of the invoked
route handler, or of the not-found handler, propagates unchanged out of
Serve. -/
theorem serve_panic_propagates_no_trap :
    (∀ (fuel : Nat) (r : Router C W E V) (ctx : C) (reqPath : String) (w : W)
        (pool : Pool) (root : Tree C W E V) (h : Handle C W E V) (v : V),
      r.conf.panicHandler = none → r.tree = some root → reqPath ≠ "" →
      (root.getValue reqPath).handle = some h →
      h ctx reqPath
          (if (root.getValue reqPath).usesBuffer
            then (root.getValue reqPath).params else []) w
        = Outcome.panic v →
      (r.serve (fuel + 1) ctx reqPath w pool).result
        = some (Outcome.panic v)) ∧
    (∀ (fuel : Nat) (r : Router C W E V) (ctx : C) (reqPath : String) (w : W)
        (pool : Pool) (nf : Handle C W E V) (v : V),
      r.conf.panicHandler = none → r.tree = none → reqPath ≠ "" →
      r.conf.notFound = some nf →
      nf ctx reqPath [] w = Outcome.panic v →
      (r.serve (fuel + 1) ctx reqPath w pool).result
        = some (Outcome.panic v)) := by
  constructor
  · intro fuel r ctx reqPath w pool root h v hph hroot hpath hh hcall
    cases hub : (root.getValue reqPath).usesBuffer <;>
      rw [hub] at hcall <;>
      simp only [Bool.false_eq_true, ite_false, ite_true] at hcall <;>
      simp [Router.serve, hroot, hpath, runGetValue, hub, hh, hcall,
        Router.recoverPanic, hph]
  · intro fuel r ctx reqPath w pool nf v hph hroot hpath hnf hnfcall
    simp [Router.serve, hroot, hpath, notFoundStep, hnf, hnfcall,
      Router.recoverPanic, hph]

theorem notFoundStep_pool (r : Router C W E V) (ctx : C) (p : String) (w : W)
    (pool : Pool) (evs : List (Event C W V)) :
    (notFoundStep r ctx p w pool evs).pool = pool := by
  rcases hnf : r.conf.notFound with _ | nf <;> simp [notFoundStep, hnf]

theorem trapOk_mk (res : Option (Outcome E V)) (pl : Pool)
    (evs : List (Event C W V)) (h : countTrapCalls evs = 0) :
    trapOk (⟨res, pl, evs⟩ : ServeOut C W E V) :=
  ⟨by simp [trapOk, h], fun _ _ => h⟩

theorem trapOk_notFoundStep (r : Router C W E V) (ctx : C) (p : String)
    (w : W) (pool : Pool) (evs : List (Event C W V))
    (h : countTrapCalls evs = 0) : trapOk (notFoundStep r ctx p w pool evs) := by
  rcases hnf : r.conf.notFound with _ | nf
  · simp only [notFoundStep, hnf]
    exact trapOk_mk _ _ _ h
  · simp only [notFoundStep, hnf]
    refine trapOk_mk _ _ _ ?_
    simp only [countTrapCalls, List.countP_append] at h ⊢
    simp [h, List.countP_cons]

theorem trapOk_redirect_tsr (sub : ServeOut C W E V) (hsub : trapOk sub)
    (a b : String) :
    trapOk (⟨sub.result, sub.pool,
      Event.tsrRedirect a b :: sub.events⟩ : ServeOut C W E V) := by
  obtain ⟨h1, h2⟩ := hsub
  refine ⟨?_, fun v hv => ?_⟩
  · simpa [countTrapCalls, List.countP_cons] using h1
  · simpa [countTrapCalls, List.countP_cons] using h2 v hv

theorem trapOk_redirect_fixed (sub : ServeOut C W E V) (hsub : trapOk sub)
    (a b : String) :
    trapOk (⟨sub.result, sub.pool,
      Event.fixedRedirect a b :: sub.events⟩ : ServeOut C W E V) := by
  obtain ⟨h1, h2⟩ := hsub
  refine ⟨?_, fun v hv => ?_⟩
  · simpa [countTrapCalls, List.countP_cons] using h1
  · simpa [countTrapCalls, List.countP_cons] using h2 v hv

theorem recoverPanic_trapOk (r : Router C W E V) (ctx : C) (p : String)
    (w : W) (core : ServeOut C W E V) (h : trapOk core) :
    trapOk (r.recoverPanic ctx p w core) := by
  obtain ⟨h1, h2⟩ := h
  rcases hres : core.result with _ | out
  · rw [recoverPanic_none _ _ _ _ _ hres]; exact ⟨h1, h2⟩
  · rcases out with ⟨f, e⟩ | pv
    · rw [recoverPanic_ret _ _ _ _ _ _ _ hres]; exact ⟨h1, h2⟩
    · have h0 := h2 pv hres
      rcases hph : r.conf.panicHandler with _ | ph
      · rw [recoverPanic_no_handler _ _ _ _ _ hph]; exact ⟨h1, h2⟩
      · simp only [Router.recoverPanic, hres, hph]
        have hcount : countTrapCalls
            (core.events ++ [Event.trapCall ctx p w pv]) = 1 := by
          simp only [countTrapCalls, List.countP_append] at h0 ⊢
          simp [h0, List.countP_cons]
        rcases h3 : ph ctx p w pv with _ | pv2 <;> simp only [h3] <;>
          exact ⟨le_of_eq hcount, fun v hv => by simp at hv⟩

theorem serve_trapOk (fuel : Nat) :
    ∀ (r : Router C W E V) (ctx : C) (p : String) (w : W) (pool : Pool),
      trapOk (r.serve fuel ctx p w pool) := by
  induction fuel with
  | zero =>
      intro r ctx p w pool
      exact trapOk_mk _ _ _ rfl
  | succ n ih =>
      intro r ctx p w pool
      simp only [Router.serve]
      apply recoverPanic_trapOk
      generalize (if p = "" then "/" else p) = np
      rcases htree : r.tree with _ | root
      · simp only [htree]
        exact trapOk_notFoundStep _ _ _ _ _ _ rfl
      · cases hub : (root.getValue np).usesBuffer <;>
          simp only [htree] <;> simp only [runGetValue, hub] <;>
          simp only [Bool.false_eq_true, ite_true, ite_false, if_true, if_false,
            reduceIte]
        all_goals
          split
          · split
            · exact trapOk_mk _ _ _ rfl
            · split
              · exact trapOk_mk _ _ _ rfl
              · exact trapOk_notFoundStep _ _ _ _ _ _ rfl
          · split
            · split
              · exact trapOk_redirect_tsr _ (ih _ _ _ _ _) _ _
              · split
                · split
                  · exact trapOk_redirect_fixed _ (ih _ _ _ _ _) _ _
                  · exact trapOk_notFoundStep _ _ _ _ _ _ rfl
                · exact trapOk_notFoundStep _ _ _ _ _ _ rfl
            · exact trapOk_notFoundStep _ _ _ _ _ _ rfl

/-- C5: with a trap configured, an abnormally terminating route handler
does not propagate out of Serve and is not turned into an error: Serve
returns (false, nil); the trap is invoked exactly once here, with the
context, request path, writer and trapped value, whatever the trap itself
does (an abnormal termination inside the trap is swallowed); and in
general every Serve call records at most one trap invocation. -/
theorem serve_trap_on_panic (fuel : Nat) (r : Router C W E V) (ctx : C)
    (reqPath : String) (w : W) (pool : Pool) (root : Tree C W E V)
    (h : Handle C W E V) (v : V) (ph : C → String → W → V → TrapOut V)
    (hph : r.conf.panicHandler = some ph)
    (hroot : r.tree = some root) (hpath : reqPath ≠ "")
    (hh : (root.getValue reqPath).handle = some h)
    (hcall : h ctx reqPath
        (if (root.getValue reqPath).usesBuffer
          then (root.getValue reqPath).params else []) w
        = Outcome.panic v) :
    (r.serve (fuel + 1) ctx reqPath w pool).result
        = some (Outcome.ret false none) ∧
      (r.serve (fuel + 1) ctx reqPath w pool).events
        = [Event.handlerCall ctx reqPath
            (if (root.getValue reqPath).usesBuffer
              then (root.getValue reqPath).params else []) w,
           Event.trapCall ctx reqPath w v] ∧
      (∀ (fuel2 : Nat) (r2 : Router C W E V) (ctx2 : C) (p2 : String)
          (w2 : W) (pool2 : Pool),
        countTrapCalls (r2.serve fuel2 ctx2 p2 w2 pool2).events ≤ 1) := by
  refine ⟨?_, ?_, fun fuel2 r2 ctx2 p2 w2 pool2 =>
    (serve_trapOk fuel2 r2 ctx2 p2 w2 pool2).1⟩ <;>
  · cases hub : (root.getValue reqPath).usesBuffer <;>
      rw [hub] at hcall <;>
      simp only [Bool.false_eq_true, ite_false, ite_true] at hcall <;>
      rcases htr : ph ctx reqPath w v with _ | pv2 <;>
      simp [Router.serve, hroot, hpath, runGetValue, hub, hh, hcall,
        Router.recoverPanic, hph, htr]

theorem countRedirects_notFoundStep (r : Router C W E V) (ctx : C)
    (p : String) (w : W) (pool : Pool) (evs : List (Event C W V)) :
    countRedirects (notFoundStep r ctx p w pool evs).events
      = countRedirects evs := by
  rcases hnf : r.conf.notFound with _ | nf <;>
    simp [notFoundStep, hnf, countRedirects, List.countP_append,
      List.countP_cons]

theorem recoverPanic_countRedirects (r : Router C W E V) (ctx : C)
    (p : String) (w : W) (core : ServeOut C W E V) :
    countRedirects (r.recoverPanic ctx p w core).events
      = countRedirects core.events := by
  rcases hres : core.result with _ | out
  · rw [recoverPanic_none _ _ _ _ _ hres]
  · rcases out with ⟨f, e⟩ | pv
    · rw [recoverPanic_ret _ _ _ _ _ _ _ hres]
    · rcases hph : r.conf.panicHandler with _ | ph
      · rw [recoverPanic_no_handler _ _ _ _ _ hph]
      · simp only [Router.recoverPanic, hres, hph]
        rcases h3 : ph ctx p w pv with _ | pv2 <;>
          simp [h3, countRedirects, List.countP_append, List.countP_cons]

theorem countRedirects_cons_tsr (a b : String) (evs : List (Event C W V)) :
    countRedirects (Event.tsrRedirect a b :: evs) = countRedirects evs + 1 := by
  simp [countRedirects, List.countP_cons]

theorem countRedirects_cons_fixed (a b : String) (evs : List (Event C W V)) :
    countRedirects (Event.fixedRedirect a b :: evs)
      = countRedirects evs + 1 := by
  simp [countRedirects, List.countP_cons]

theorem serve_borrowed_monotone (fuel : Nat) :
    ∀ (r : Router C W E V) (ctx : C) (p : String) (w : W) (pool : Pool),
      pool.borrowed ≤ (r.serve fuel ctx p w pool).pool.borrowed := by
  induction fuel with
  | zero => intro r ctx p w pool; simp [Router.serve]
  | succ n ih =>
      intro r ctx p w pool
      simp only [Router.serve, recoverPanic_pool]
      generalize (if p = "" then "/" else p) = np
      rcases htree : r.tree with _ | root
      · simp [htree, notFoundStep_pool]
      · cases hub : (root.getValue np).usesBuffer <;>
          simp only [htree] <;> simp only [runGetValue, hub] <;>
          simp only [Bool.false_eq_true, ite_true, ite_false, if_true,
            if_false, reduceIte]
        · split
          · split
            · simp [putParams]
            · split
              · simp [putParams]
              · rw [notFoundStep_pool]
                simp [putParams]
          · split
            · split
              · exact ih r ctx (toggleTrailingSlash np) w pool
              · split
                · split
                  · rename_i fp hfp
                    exact ih r ctx fp w pool
                  · rw [notFoundStep_pool]
                · rw [notFoundStep_pool]
            · rw [notFoundStep_pool]
        · split
          · split
            · simp [putParams, getParams]
            · split
              · simp [putParams, getParams]
              · rw [notFoundStep_pool]
                simp [putParams, getParams]
          · split
            · split
              · exact le_trans (Nat.le_succ _)
                  (ih r ctx (toggleTrailingSlash np) w (getParams pool))
              · split
                · split
                  · rename_i fp hfp
                    exact le_trans (Nat.le_succ _) (ih r ctx fp w (getParams pool))
                  · rw [notFoundStep_pool]
                    exact Nat.le_succ _
                · rw [notFoundStep_pool]
                  exact Nat.le_succ _
            · rw [notFoundStep_pool]
              exact Nat.le_succ _

theorem serve_gets_per_lookup (fuel : Nat) :
    ∀ (r : Router C W E V) (ctx : C) (p : String) (w : W) (pool : Pool),
      (r.serve fuel ctx p w pool).pool.gets
        ≤ pool.gets + 1 + countRedirects (r.serve fuel ctx p w pool).events := by
  induction fuel with
  | zero =>
      intro r ctx p w pool
      simp only [Router.serve, countRedirects, List.countP_nil]
      omega
  | succ n ih =>
      intro r ctx p w pool
      simp only [Router.serve, recoverPanic_pool, recoverPanic_countRedirects]
      generalize (if p = "" then "/" else p) = np
      rcases htree : r.tree with _ | root
      · simp only [htree, notFoundStep_pool, countRedirects_notFoundStep]
        simp only [countRedirects, List.countP_nil]
        omega
      · cases hub : (root.getValue np).usesBuffer <;>
          simp only [htree] <;> simp only [runGetValue, hub] <;>
          simp only [Bool.false_eq_true, ite_true, ite_false, if_true,
            if_false, reduceIte]
        · split
          · split
            · simp [putParams, countRedirects, List.countP_cons]
            · split
              · simp [putParams, countRedirects, List.countP_cons]
              · rw [notFoundStep_pool, countRedirects_notFoundStep]
                simp [putParams, countRedirects, List.countP_cons]
          · split
            · split
              · dsimp only
                rw [countRedirects_cons_tsr]
                have hih := ih r ctx (toggleTrailingSlash np) w pool
                omega
              · split
                · split
                  · rename_i fp hfp
                    dsimp only
                    rw [countRedirects_cons_fixed]
                    have hih := ih r ctx fp w pool
                    omega
                  · rw [notFoundStep_pool, countRedirects_notFoundStep]
                    simp only [countRedirects, List.countP_nil]
                    omega
                · rw [notFoundStep_pool, countRedirects_notFoundStep]
                  simp only [countRedirects, List.countP_nil]
                  omega
            · rw [notFoundStep_pool, countRedirects_notFoundStep]
              simp only [countRedirects, List.countP_nil]
              omega
        · split
          · split
            · simp [putParams, getParams, countRedirects, List.countP_cons]
            · split
              · simp [putParams, getParams, countRedirects, List.countP_cons]
              · rw [notFoundStep_pool, countRedirects_notFoundStep]
                simp [putParams, getParams, countRedirects, List.countP_cons]
          · split
            · split
              · dsimp only
                rw [countRedirects_cons_tsr]
                have hih := ih r ctx (toggleTrailingSlash np) w (getParams pool)
                rw [show (getParams pool).gets = pool.gets + 1 from rfl] at hih
                omega
              · split
                · split
                  · rename_i fp hfp
                    dsimp only
                    rw [countRedirects_cons_fixed]
                    have hih := ih r ctx fp w (getParams pool)
                    rw [show (getParams pool).gets = pool.gets + 1 from rfl]
                      at hih
                    omega
                  · rw [notFoundStep_pool, countRedirects_notFoundStep]
                    simp only [getParams, countRedirects, List.countP_nil]
                    omega
                · rw [notFoundStep_pool, countRedirects_notFoundStep]
                  simp only [getParams, countRedirects, List.countP_nil]
                  omega
            · rw [notFoundStep_pool, countRedirects_notFoundStep]
              simp only [getParams, countRedirects, List.countP_nil]
              omega

theorem serve_miss_drops_buffer (fuel : Nat) (r : Router C W E V) (ctx : C)
    (path : String) (w : W) (pool : Pool) (root : Tree C W E V)
    (hroot : r.tree = some root)
    (hh : (root.getValue (if path = "" then "/" else path)).handle = none)
    (hub : (root.getValue (if path = "" then "/" else path)).usesBuffer
      = true) :
    pool.borrowed + 1 ≤ (r.serve (fuel + 1) ctx path w pool).pool.borrowed := by
  simp only [Router.serve, recoverPanic_pool, hroot]
  generalize hnp : (if path = "" then "/" else path) = np
  rw [hnp] at hh hub
  simp only [runGetValue, hub]
  simp only [Bool.false_eq_true, ite_true, ite_false, if_true, if_false,
    reduceIte, hh]
  split
  · split
    · exact serve_borrowed_monotone fuel r ctx (toggleTrailingSlash np) w
        (getParams pool)
    · split
      · split
        · rename_i fp hfp
          exact serve_borrowed_monotone fuel r ctx fp w (getParams pool)
        · rw [notFoundStep_pool]
          exact le_rfl
      · rw [notFoundStep_pool]
        exact le_rfl
  · rw [notFoundStep_pool]
    exact le_rfl

/-- C1 counterexample: the pool buffer is not returned in every outcome.
Looking up a path that hits a handler with bound parameters hands the
buffer to the caller: it leaves the pool (free drops from one to zero)
and stays out (borrowed is one, not zero) when LookupPath returns.
Serving a path whose lookup binds a placeholder and then misses returns
(false, nil) with the buffer likewise still out of the pool.  Both
contradict the claim that every borrowed buffer is returned to the pool
before the call returns. -/
theorem lookupPath_keeps_buffer_on_hit :
    (rtrParams.lookupPath "/a" ⟨1, 0, 0⟩).1.isSome = true ∧
      (rtrParams.lookupPath "/a" ⟨1, 0, 0⟩).2.2.2.borrowed = 1 ∧
      (rtrParams.lookupPath "/a" ⟨1, 0, 0⟩).2.2.2.free = 0 ∧
      (rtrDrop.serve 1 () "/a/x/z" () ⟨1, 0, 0⟩).result
        = some (Outcome.ret false none) ∧
      (rtrDrop.serve 1 () "/a/x/z" () ⟨1, 0, 0⟩).pool.borrowed = 1 ∧
      (rtrDrop.serve 1 () "/a/x/z" () ⟨1, 0, 0⟩).pool.free = 0 :=
  ⟨rfl, rfl, rfl, rfl, rfl, rfl⟩

/-- C1 amended: each call borrows at most one buffer per tree lookup
performed — for Serve one lookup for the call plus one per recorded
redirect reentry.  LookupPath returns the buffer to the pool when no
handler was found, and hands it to the caller without returning it when a
handler with parameters was found.  Serve returns its borrowed buffer to
the pool before returning whenever the lookup found a handler; a buffer
borrowed during a lookup that missed is dropped: it is still out of the
pool when Serve returns. -/
theorem pool_discipline :
    (∀ (r : Router C W E V) (path : String) (pool : Pool),
      (r.lookupPath path pool).2.2.2.gets ≤ pool.gets + 1) ∧
    (∀ (r : Router C W E V) (path : String) (pool : Pool),
      (r.lookupPath path pool).1 = none →
      (r.lookupPath path pool).2.2.2.borrowed = pool.borrowed) ∧
    (∀ (r : Router C W E V) (path : String) (pool : Pool)
        (root : Tree C W E V),
      r.tree = some root → (root.getValue path).handle.isSome = true →
      (root.getValue path).usesBuffer = true →
      (r.lookupPath path pool).2.2.2.borrowed = pool.borrowed + 1) ∧
    (∀ (fuel : Nat) (r : Router C W E V) (ctx : C) (path : String) (w : W)
        (pool : Pool) (root : Tree C W E V),
      r.tree = some root →
      (root.getValue (if path = "" then "/" else path)).handle.isSome = true →
      (r.serve (fuel + 1) ctx path w pool).pool.borrowed = pool.borrowed ∧
        (r.serve (fuel + 1) ctx path w pool).pool.gets ≤ pool.gets + 1) ∧
    (∀ (fuel : Nat) (r : Router C W E V) (ctx : C) (path : String) (w : W)
        (pool : Pool),
      (r.serve fuel ctx path w pool).pool.gets
        ≤ pool.gets + 1
            + countRedirects (r.serve fuel ctx path w pool).events) ∧
    (∀ (fuel : Nat) (r : Router C W E V) (ctx : C) (path : String) (w : W)
        (pool : Pool) (root : Tree C W E V),
      r.tree = some root →
      (root.getValue (if path = "" then "/" else path)).handle = none →
      (root.getValue (if path = "" then "/" else path)).usesBuffer = true →
      pool.borrowed + 1
        ≤ (r.serve (fuel + 1) ctx path w pool).pool.borrowed) := by
  refine ⟨?_, ?_, ?_, ?_,
    fun fuel r ctx path w pool => serve_gets_per_lookup fuel r ctx path w pool,
    fun fuel r ctx path w pool root hroot hh hub =>
      serve_miss_drops_buffer fuel r ctx path w pool root hroot hh hub⟩
  · intro r path pool
    rcases htree : r.tree with _ | root
    · simp [Router.lookupPath, htree]
    · rcases hh : (root.getValue path).handle with _ | h <;>
        cases hub : (root.getValue path).usesBuffer <;>
        simp [Router.lookupPath, htree, runGetValue, hub, hh, putParams,
          getParams]
  · intro r path pool hnone
    rcases htree : r.tree with _ | root
    · simp [Router.lookupPath, htree]
    · rcases hh : (root.getValue path).handle with _ | h
      · cases hub : (root.getValue path).usesBuffer <;>
          simp [Router.lookupPath, htree, runGetValue, hub, hh, putParams,
            getParams]
      · exfalso
        cases hub : (root.getValue path).usesBuffer <;>
          simp [Router.lookupPath, htree, runGetValue, hub, hh] at hnone
  · intro r path pool root hroot hsome hub
    rcases hh : (root.getValue path).handle with _ | h
    · rw [hh] at hsome; simp at hsome
    · simp [Router.lookupPath, hroot, runGetValue, hub, hh, getParams]
  · intro fuel r ctx path w pool root hroot hsome
    rcases hh : (root.getValue (if path = "" then "/" else path)).handle
        with _ | h
    · rw [hh] at hsome; simp at hsome
    · simp only [Router.serve, recoverPanic_pool, hroot]
      cases hub : (root.getValue (if path = "" then "/" else path)).usesBuffer <;>
        simp only [runGetValue, hub] <;>
        simp only [Bool.false_eq_true, ite_true, ite_false, if_true, if_false,
          reduceIte, hh]
      all_goals
        constructor
      all_goals
        split
      all_goals
        split <;> simp [putParams, getParams, notFoundStep_pool]

/-- C2 witness: a concrete router whose handler reports (false, error)
propagates exactly that pair out of Serve. -/
theorem serve_propagates_handler_error_witness :
    (rtrErr.serve 1 () "/x" () ⟨0, 0, 0⟩).result
      = some (Outcome.ret false (some ())) :=
  (serve_propagates_handler_error 0 rtrErr () "/x" () ⟨0, 0, 0⟩ treeErr hdlErr
    false () rfl (by decide) rfl rfl).1

/-- C3 witness: a concrete router whose handler reports (false, nil) falls
to its configured not-found handler and returns its result. -/
theorem serve_not_found_fallback_witness :
    (rtrMiss.serve 1 () "/x" () ⟨0, 0, 0⟩).result
      = some (Outcome.ret true none) :=
  ((serve_handler_not_found_fallback 0 rtrMiss () "/x" () ⟨0, 0, 0⟩ treeMiss
    hdlMiss rfl (by decide) rfl rfl).2 nfOk true none rfl rfl).1

/-- C4 witness: a concrete router registering only a path without the
trailing slash serves the slashed path by reentering itself on the
stripped path. -/
theorem serve_tsr_reentry_witness :
    (rtrTsr.serve 2 () "/x/" () ⟨0, 0, 0⟩).result
      = (rtrTsr.serve 1 () "/x" () ⟨0, 0, 0⟩).result := by
  have h := (serve_tsr_reentry 1 rtrTsr () "/x/" () ⟨0, 0, 0⟩ treeTsr rfl rfl
    (by decide) (by decide) rfl rfl).1
  rw [h, show toggleTrailingSlash "/x/" = "/x" from by decide]
  rfl

/-- C5 witness: a concrete router whose handler terminates abnormally,
with a trap that itself terminates abnormally, returns (false, nil) and
records exactly one trap invocation. -/
theorem serve_trap_on_panic_witness :
    (rtrPanic.serve 1 () "/x" () ⟨0, 0, 0⟩).result
        = some (Outcome.ret false none) ∧
      (rtrPanic.serve 1 () "/x" () ⟨0, 0, 0⟩).events
        = [Event.handlerCall () "/x" [] (), Event.trapCall () "/x" () ()] := by
  have h := serve_trap_on_panic 0 rtrPanic () "/x" () ⟨0, 0, 0⟩ treePanic
    hdlPanics () trapTrap rfl rfl (by decide) rfl rfl
  exact ⟨h.1, h.2.1⟩

/-- C10 witness: with no trap configured, the abnormal termination of the
route handler, and of the not-found handler, escapes Serve on concrete
routers. -/
theorem serve_panic_propagates_witness :
    (rtrNoTrapA.serve 1 () "/x" () ⟨0, 0, 0⟩).result
        = some (Outcome.panic ()) ∧
      (rtrNoTrapB.serve 1 () "/x" () ⟨0, 0, 0⟩).result
        = some (Outcome.panic ()) :=
  ⟨serve_panic_propagates_no_trap.1 0 rtrNoTrapA () "/x" () ⟨0, 0, 0⟩
      treePanic hdlPanics () rfl rfl (by decide) rfl rfl,
    serve_panic_propagates_no_trap.2 0 rtrNoTrapB () "/x" () ⟨0, 0, 0⟩
      hdlPanics () rfl rfl (by decide) rfl rfl⟩

/-- C1 witness: the amended pool discipline evaluated on concrete
routers: a lookup performs at most one borrow, a Serve that finds a
handler leaves the borrowed count unchanged, a Serve obeys the per-lookup
borrow bound, and a Serve whose lookup borrows and misses still has the
buffer out on return. -/
theorem pool_discipline_witness :
    (rtrParams.lookupPath "/a" ⟨1, 0, 0⟩).2.2.2.gets
        ≤ (⟨1, 0, 0⟩ : Pool).gets + 1 ∧
      (rtrParams.serve 1 () "/a" () ⟨1, 0, 0⟩).pool.borrowed
        = (⟨1, 0, 0⟩ : Pool).borrowed ∧
      (rtrDrop.serve 1 () "/a/x/z" () ⟨1, 0, 0⟩).pool.gets
        ≤ (⟨1, 0, 0⟩ : Pool).gets + 1
            + countRedirects (rtrDrop.serve 1 () "/a/x/z" () ⟨1, 0, 0⟩).events ∧
      (⟨1, 0, 0⟩ : Pool).borrowed + 1
        ≤ (rtrDrop.serve 1 () "/a/x/z" () ⟨1, 0, 0⟩).pool.borrowed :=
  ⟨pool_discipline.1 rtrParams "/a" ⟨1, 0, 0⟩,
    (pool_discipline.2.2.2.1 0 rtrParams () "/a" () ⟨1, 0, 0⟩ treeParams
      rfl rfl).1,
    pool_discipline.2.2.2.2.1 1 rtrDrop () "/a/x/z" () ⟨1, 0, 0⟩,
    pool_discipline.2.2.2.2.2 0 rtrDrop () "/a/x/z" () ⟨1, 0, 0⟩ treeDrop
      rfl rfl rfl⟩

end PathRouter
